import Mathlib

/-
Verification of the markoom library (Arabic Quran text access and analysis).

The embedding below mirrors, function by function, the Python sources:
  src/markoom/processing.py  (diacritic removal, normalization, tokenization)
  src/markoom/core.py        (Ayah / Surah / Quran data model and accessors)
  src/markoom/exceptions.py  (error taxonomy)

Strings are modelled as lists of characters; Python keyword-argument
dictionaries are modelled as records of optional fields; Python exceptions
are modelled with Except.
-/

/-! ## Character constants (Unicode code points used by the sources) -/

def shadda : Char := Char.ofNat 0x0651

def fatha : Char := Char.ofNat 0x064E

def tanwinFath : Char := Char.ofNat 0x064B

def damma : Char := Char.ofNat 0x064F

def tanwinDamm : Char := Char.ofNat 0x064C

def kasra : Char := Char.ofNat 0x0650

def tanwinKasr : Char := Char.ofNat 0x064D

def sukun : Char := Char.ofNat 0x0652

def tatwil : Char := Char.ofNat 0x0640

def alefHamzaAbove : Char := Char.ofNat 0x0623

def alefHamzaBelow : Char := Char.ofNat 0x0625

def alefMadda : Char := Char.ofNat 0x0622

def alef : Char := Char.ofNat 0x0627

def tehMarbuta : Char := Char.ofNat 0x0629

def heh : Char := Char.ofNat 0x0647

def alefMaksura : Char := Char.ofNat 0x0649

def yeh : Char := Char.ofNat 0x064A

def waw : Char := Char.ofNat 0x0648

def feh : Char := Char.ofNat 0x0641

namespace processing

/-- The fixed diacritics set of processing.py (regex ARABIC_DIACRITICS):
Shadda, Fatha, Tanwin Fath, Damma, Tanwin Damm, Kasra, Tanwin Kasr, Sukun,
Tatwil. -/
def ARABIC_DIACRITICS : List Char :=
  [shadda, fatha, tanwinFath, damma, tanwinDamm, kasra, tanwinKasr, sukun, tatwil]

def isDiacritic (c : Char) : Bool := ARABIC_DIACRITICS.contains c

/-- The fixed substitution table ARABIC_NORMALIZATION_MAP of processing.py,
as the dict lookup map.get(char): three Alif variants to plain Alif,
Teh Marbuta to Heh, Alef Maksura to Yeh. -/
def ARABIC_NORMALIZATION_MAP (c : Char) : Option Char :=
  if c = alefHamzaAbove then some alef
  else if c = alefHamzaBelow then some alef
  else if c = alefMadda then some alef
  else if c = tehMarbuta then some heh
  else if c = alefMaksura then some yeh
  else none

/-- ARABIC_NORMALIZATION_MAP.get(char, char): the per-character step of
normalize_arabic. -/
def normalizeChar (c : Char) : Char := (ARABIC_NORMALIZATION_MAP c).getD c

/-- processing.remove_diacritics: re.sub(ARABIC_DIACRITICS, '', text), i.e.
delete every character of the diacritics set. -/
def remove_diacritics (text : List Char) : List Char :=
  text.filter (fun c => !(isDiacritic c))

/-- processing.normalize_arabic: per-character substitution through
ARABIC_NORMALIZATION_MAP with identity default. -/
def normalize_arabic (text : List Char) : List Char :=
  text.map normalizeChar

/-- Code points on which Python str.split() breaks: exactly the characters
for which str.isspace() holds. -/
def pySpaceCodes : List Nat :=
  [0x09, 0x0A, 0x0B, 0x0C, 0x0D, 0x1C, 0x1D, 0x1E, 0x1F, 0x20, 0x85, 0xA0,
   0x1680, 0x2000, 0x2001, 0x2002, 0x2003, 0x2004, 0x2005, 0x2006, 0x2007,
   0x2008, 0x2009, 0x200A, 0x2028, 0x2029, 0x202F, 0x205F, 0x3000]

def isPySpace (c : Char) : Bool := pySpaceCodes.contains c.toNat

def notWs (c : Char) : Bool := !(isPySpace c)

theorem dropWhile_length_le {α} (p : α → Bool) :
    ∀ l : List α, (l.dropWhile p).length ≤ l.length := by
  intro l
  induction l with
  | nil => simp [List.dropWhile]
  | cons a t ih =>
    simp only [List.dropWhile_cons]
    split
    · exact le_trans ih (Nat.le_succ _)
    · simp

/-- Python text.split(): maximal runs of non-whitespace characters, in order,
with empty segments discarded. A whitespace character contributes nothing; a
non-whitespace character either starts a new token (at the end of the text or
before a whitespace character) or extends the token that follows it. -/
def pySplit : List Char → List (List Char)
  | [] => []
  | c :: rest =>
    if isPySpace c then pySplit rest
    else
      match rest with
      | [] => [[c]]
      | d :: _ =>
        if isPySpace d then [c] :: pySplit rest
        else (c :: (pySplit rest).headD []) :: (pySplit rest).tail

/-- word.startswith(('و', 'ف')): the first character is Waw or Feh. -/
def startswith_wa_fa (w : List Char) : Bool :=
  match w with
  | [] => false
  | c :: _ => c == waw || c == feh

/-- The token loop of processing.tokenize when split_on_wa is true: a word of
length > 1 starting with Waw or Feh contributes word[0] then word[1:];
any other word is appended unchanged. -/
def splitTokens : List (List Char) → List (List Char)
  | [] => []
  | word :: rest =>
    if word.length > 1 ∧ startswith_wa_fa word then
      word.take 1 :: word.drop 1 :: splitTokens rest
    else
      word :: splitTokens rest

/-- processing.tokenize: text.split(), returned as is when split_on_wa is
false, else rebuilt by the conjunction-splitting loop. -/
def tokenize (text : List Char) (split_on_wa : Bool) : List (List Char) :=
  let words := pySplit text
  if split_on_wa then splitTokens words else words

end processing

/-! ## core.py: Ayah, Surah, Quran -/

/-- Python exceptions raised by core.py (exceptions.py hierarchy). -/
inductive MarkoomError
  | invalidSurahNumber (surah_number : Int)
  | invalidAyahNumber (surah_number : Nat) (ayah_number : Int)
  | dataFileError (file_path : String)
deriving DecidableEq

/-- A Python TypeError, raised when a function receives an unexpected keyword
argument. -/
inductive PyError
  | typeError
deriving DecidableEq

/-- The keyword arguments accepted by the Ayah analysis methods, each possibly
absent (Python **kwargs restricted to the three documented options). -/
structure Kwargs where
  normalize : Option Bool
  remove_diacritics : Option Bool
  split_on_wa : Option Bool
deriving DecidableEq

structure Ayah where
  surah_number : Nat
  number : Nat
  raw_text : List Char
deriving DecidableEq

/-- Ayah.get_processed_text(normalize=True, remove_diacritics=True): apply
remove_diacritics first when requested, then normalize_arabic when
requested. -/
def Ayah.get_processed_text (a : Ayah) (normalize remove_diacritics : Bool) :
    List Char :=
  let text := a.raw_text
  let text := if remove_diacritics then processing.remove_diacritics text else text
  let text := if normalize then processing.normalize_arabic text else text
  text

/-- A direct call Ayah.get_processed_text(**kwargs): the Python signature binds
only normalize and remove_diacritics, so any split_on_wa keyword raises
TypeError. -/
def Ayah.get_processed_text_kw (a : Ayah) (kw : Kwargs) :
    Except PyError (List Char) :=
  if kw.split_on_wa.isSome then Except.error PyError.typeError
  else Except.ok (a.get_processed_text (kw.normalize.getD true)
    (kw.remove_diacritics.getD true))

/-- Ayah.get_words(**kwargs): reads each option with kwargs.get and its
default, so it never raises. -/
def Ayah.get_words (a : Ayah) (kw : Kwargs) : List (List Char) :=
  processing.tokenize
    (a.get_processed_text (kw.normalize.getD true) (kw.remove_diacritics.getD true))
    (kw.split_on_wa.getD false)

/-- Ayah.word_count(**kwargs): len(get_words(**kwargs)). -/
def Ayah.word_count (a : Ayah) (kw : Kwargs) : Nat :=
  (a.get_words kw).length

/-- The value len(processed.replace(' ', '')) computed by Ayah.letter_count
once the two processing flags are resolved. -/
def Ayah.letter_count (a : Ayah) (normalize remove_diacritics : Bool) : Nat :=
  ((a.get_processed_text normalize remove_diacritics).filter
    (fun c => !(c == ' '))).length

/-- Ayah.letter_count(**kwargs): forwards every keyword to get_processed_text,
whose signature rejects split_on_wa with a TypeError. -/
def Ayah.letter_count_kw (a : Ayah) (kw : Kwargs) : Except PyError Nat :=
  if kw.split_on_wa.isSome then Except.error PyError.typeError
  else Except.ok (a.letter_count (kw.normalize.getD true)
    (kw.remove_diacritics.getD true))

structure Surah where
  number : Nat
  name : List Char
  ayahs : List Ayah
deriving DecidableEq

/-- Surah.get_ayah: 1-indexed lookup into self.ayahs, raising
InvalidAyahNumberError(self.number, ayah_number) outside
1 <= ayah_number <= len(self.ayahs). -/
def Surah.get_ayah (s : Surah) (ayah_number : Int) : Except MarkoomError Ayah :=
  if h : 1 ≤ ayah_number ∧ ayah_number ≤ (s.ayahs.length : Int) then
    Except.ok (s.ayahs.get ⟨(ayah_number - 1).toNat, by omega⟩)
  else
    Except.error (MarkoomError.invalidAyahNumber s.number ayah_number)

/-- The Quran object after loading: its script and the _surahs dict, modelled
as a partial map from numbers to Surah objects (dict.get semantics). -/
structure Quran where
  script : String
  surahs : Int → Option Surah

/-- Quran.get_surah: self._surahs.get(surah_number), raising
InvalidSurahNumberError(surah_number) when the key is absent. -/
def Quran.get_surah (q : Quran) (surah_number : Int) : Except MarkoomError Surah :=
  match q.surahs surah_number with
  | none => Except.error (MarkoomError.invalidSurahNumber surah_number)
  | some s => Except.ok s

/-- The file-name computation at the top of Quran._load_data: a conditional
assignment ('-min' for uthmani, '-clean' otherwise) followed by an
unconditional reassignment to the '-min' pattern for the current script. -/
def load_file_name (script : String) : String :=
  let file_name := if script = "uthmani" then "quran-" ++ script ++ "-min.xml"
    else "quran-" ++ script ++ "-clean.xml"
  let file_name := "quran-" ++ script ++ "-min.xml"
  file_name

/-- One aya element of the XML source: its index attribute, text attribute and
the optional bismillah attribute. -/
structure AyaRecord where
  index : Nat
  text : List Char
  bismillah : Option (List Char)
deriving DecidableEq

/-- The per-aya text computation of Quran._load_data: the bismillah attribute,
when present, is prepended with a single space, but only when this aya is the
first aya element of its sura. -/
def processAyaRecord (is_first : Bool) (r : AyaRecord) : List Char :=
  match r.bismillah with
  | some b => if is_first then b ++ ' ' :: r.text else r.text
  | none => r.text

/-- The aya loop of Quran._load_data for one sura: the identity comparison
aya_element == sura_element.find('aya') holds exactly for the first element
of the list. -/
def loadSurahAyahs (sn : Nat) : List AyaRecord → List Ayah
  | [] => []
  | r :: rest =>
    Ayah.mk sn r.index (processAyaRecord true r) ::
      rest.map (fun r2 => Ayah.mk sn r2.index (processAyaRecord false r2))

/-! ## Helper lemmas -/

theorem normalizeChar_idem (c : Char) :
    processing.normalizeChar (processing.normalizeChar c) = processing.normalizeChar c := by
  by_cases h1 : c = alefHamzaAbove
  · subst h1; decide
  by_cases h2 : c = alefHamzaBelow
  · subst h2; decide
  by_cases h3 : c = alefMadda
  · subst h3; decide
  by_cases h4 : c = tehMarbuta
  · subst h4; decide
  by_cases h5 : c = alefMaksura
  · subst h5; decide
  have hfix : processing.normalizeChar c = c := by
    unfold processing.normalizeChar processing.ARABIC_NORMALIZATION_MAP
    simp [h1, h2, h3, h4, h5]
  rw [hfix, hfix]

theorem normalizeChar_space (c : Char) :
    (!(processing.normalizeChar c == ' ')) = (!(c == ' ')) := by
  by_cases h1 : c = alefHamzaAbove
  · subst h1; decide
  by_cases h2 : c = alefHamzaBelow
  · subst h2; decide
  by_cases h3 : c = alefMadda
  · subst h3; decide
  by_cases h4 : c = tehMarbuta
  · subst h4; decide
  by_cases h5 : c = alefMaksura
  · subst h5; decide
  have hfix : processing.normalizeChar c = c := by
    unfold processing.normalizeChar processing.ARABIC_NORMALIZATION_MAP
    simp [h1, h2, h3, h4, h5]
  rw [hfix]

/-! ## Claim theorems -/

/-- Claim C2, counterexample: the claim asserts that the unconditional
reassignment makes the simplified variant read the primary variant's file;
in fact the reassigned name still contains the script, so the simplified
variant reads quran-simple-min.xml, a different file from the primary
variant's quran-uthmani-min.xml. -/
theorem load_file_name_simple_differs :
    load_file_name "simple" = "quran-simple-min.xml" ∧
    load_file_name "uthmani" = "quran-uthmani-min.xml" ∧
    load_file_name "simple" ≠ load_file_name "uthmani" := by
  refine ⟨rfl, rfl, ?_⟩
  decide

/-- Claim C2, amended: the loader does unconditionally reassign the file name
after computing a variant-specific one, overriding the '-clean' suffix chosen
for the simplified variant with the '-min' pattern for the current script: the
simplified variant reads quran-simple-min.xml instead of the computed
quran-simple-clean.xml, while still reading a file distinct from the primary
variant's. -/
theorem load_file_name_unconditional :
    (∀ script, load_file_name script = "quran-" ++ script ++ "-min.xml") ∧
    load_file_name "simple" = "quran-simple-min.xml" ∧
    load_file_name "simple" ≠ "quran-simple-clean.xml" ∧
    load_file_name "uthmani" = "quran-uthmani-min.xml" := by
  refine ⟨fun _ => rfl, rfl, ?_, rfl⟩
  decide

/-- Claim C7: both normalizer functions are idempotent: removing diacritics
twice equals removing them once, and normalizing characters twice equals
normalizing once. -/
theorem normalizers_idempotent (s : List Char) :
    processing.remove_diacritics (processing.remove_diacritics s) =
      processing.remove_diacritics s ∧
    processing.normalize_arabic (processing.normalize_arabic s) =
      processing.normalize_arabic s := by
  constructor
  · unfold processing.remove_diacritics
    rw [List.filter_filter]
    apply List.filter_congr
    intro x _
    simp
  · unfold processing.normalize_arabic
    rw [List.map_map]
    apply List.map_congr_left
    intro c _
    exact normalizeChar_idem c

/-- Claim C1: the code contradicts the claim: Ayah.letter_count forwards all
keyword arguments to get_processed_text, whose signature accepts only
normalize and remove_diacritics, so a call with split_on_wa specified raises
TypeError instead of returning a count; word_count with the same keyword
succeeds (get_words reads options with kwargs.get). -/
theorem letter_count_split_kw_raises :
    (Ayah.mk 1 5 [waw, fatha]).letter_count_kw ⟨none, none, some true⟩ =
      Except.error PyError.typeError ∧
    (Ayah.mk 1 5 [waw, fatha]).get_processed_text_kw ⟨none, none, some true⟩ =
      Except.error PyError.typeError ∧
    (Ayah.mk 1 5 [waw, fatha]).word_count ⟨none, none, some true⟩ = 1 ∧
    (Ayah.mk 1 5 [waw, fatha]).letter_count_kw ⟨some true, some true, none⟩ =
      Except.ok 1 := by
  exact ⟨rfl, rfl, rfl, rfl⟩

/-! ## Tokenizer lemmas (claims C4, C3, C10) -/

namespace processing

theorem pySplit_cons_ws (c : Char) (rest : List Char) (h : isPySpace c = true) :
    pySplit (c :: rest) = pySplit rest := by
  simp [pySplit, h]

theorem pySplit_cons_notWs (c : Char) (rest : List Char) (h : isPySpace c = false) :
    pySplit (c :: rest) =
      (c :: rest.takeWhile notWs) :: pySplit (rest.dropWhile notWs) := by
  induction rest generalizing c with
  | nil => simp [pySplit, h]
  | cons d t ih =>
    by_cases hd : isPySpace d = true
    · simp [pySplit, h, hd, notWs, List.takeWhile_cons, List.dropWhile_cons]
    · have hd' : isPySpace d = false := by simpa using hd
      have e1 : pySplit (c :: d :: t) =
          (c :: (pySplit (d :: t)).headD []) :: (pySplit (d :: t)).tail := by
        simp [pySplit, h, hd']
      rw [e1, ih d hd']
      simp [List.takeWhile_cons, List.dropWhile_cons, notWs, hd']

theorem pySplit_ne_nil (c : Char) (rest : List Char) (h : isPySpace c = false) :
    pySplit (c :: rest) ≠ [] := by
  rw [pySplit_cons_notWs c rest h]
  simp

theorem pySplit_dropWhile (l : List Char) :
    pySplit (l.dropWhile isPySpace) = pySplit l := by
  induction l with
  | nil => rfl
  | cons c rest ih =>
    by_cases h : isPySpace c = true
    · rw [List.dropWhile_cons_of_pos (by simpa using h), ih,
        pySplit_cons_ws c rest h]
    · rw [List.dropWhile_cons_of_neg (by simpa using h)]

theorem dropWhile_head_false {α} (p : α → Bool) (l : List α) (d : α) (t : List α)
    (h : l.dropWhile p = d :: t) : p d = false := by
  induction l with
  | nil => simp [List.dropWhile] at h
  | cons a r ih =>
    by_cases hp : p a = true
    · rw [List.dropWhile_cons_of_pos hp] at h
      exact ih h
    · rw [List.dropWhile_cons_of_neg hp] at h
      cases h
      simpa using hp

/-- Whether the first character of the text is whitespace. -/
def headWs : List Char → Bool
  | [] => false
  | c :: _ => isPySpace c

/-- Joining tokens with single spaces, as Python ' '.join(tokens). -/
def joinSpaces : List (List Char) → List Char
  | [] => []
  | [w] => w
  | w :: ws => w ++ ' ' :: joinSpaces ws

theorem joinSpaces_cons (w : List Char) (ps : List (List Char)) :
    joinSpaces (w :: ps) = w ++ (if ps.isEmpty then [] else ' ' :: joinSpaces ps) := by
  cases ps with
  | nil => simp [joinSpaces]
  | cons y r => rfl

/-- The input text with every maximal whitespace run collapsed to a single
space, assuming the text does not start with whitespace; leading whitespace
runs are dropped by collapseWs below. -/
def collapseRuns : List Char → List Char
  | [] => []
  | c :: rest =>
    if isPySpace c then
      if (rest.dropWhile isPySpace).isEmpty then []
      else ' ' :: collapseRuns (rest.dropWhile isPySpace)
    else c :: collapseRuns rest
termination_by l => l.length
decreasing_by
  · simp only [List.length_cons]
    exact Nat.lt_succ_of_le (dropWhile_length_le isPySpace _)
  · simp only [List.length_cons]
    omega

/-- The input text with leading and trailing whitespace removed and every
internal maximal whitespace run collapsed to a single space. -/
def collapseWs (text : List Char) : List Char :=
  collapseRuns (text.dropWhile isPySpace)

theorem collapseRuns_eq (l : List Char) :
    collapseRuns l = if pySplit l = [] then []
      else if headWs l then ' ' :: joinSpaces (pySplit l)
      else joinSpaces (pySplit l) := by
  match l with
  | [] => simp [collapseRuns, pySplit]
  | c :: rest =>
    by_cases h : isPySpace c = true
    · have e1 : collapseRuns (c :: rest) =
          if (rest.dropWhile isPySpace).isEmpty then []
          else ' ' :: collapseRuns (rest.dropWhile isPySpace) := by
        simp [collapseRuns, h]
      have e2 : pySplit (c :: rest) = pySplit (rest.dropWhile isPySpace) := by
        rw [pySplit_cons_ws c rest h, pySplit_dropWhile]
      have ehw : headWs (c :: rest) = true := by simp [headWs, h]
      have ih := collapseRuns_eq (rest.dropWhile isPySpace)
      cases hr : rest.dropWhile isPySpace with
      | nil =>
        rw [e1, hr, e2, hr]
        simp [pySplit]
      | cons d t =>
        rw [hr] at ih
        have hd : isPySpace d = false := dropWhile_head_false isPySpace rest d t hr
        have hne : pySplit (d :: t) ≠ [] := pySplit_ne_nil d t hd
        rw [e1, hr, e2, hr, ehw]
        simp only [List.isEmpty_cons, if_neg hne]
        rw [ih]
        simp [headWs, hd, hne]
    · have h' : isPySpace c = false := by simpa using h
      have e1 : collapseRuns (c :: rest) = c :: collapseRuns rest := by
        simp [collapseRuns, h']
      have ehw : headWs (c :: rest) = false := by simp [headWs, h']
      have hne : pySplit (c :: rest) ≠ [] := pySplit_ne_nil c rest h'
      rw [e1, ehw]
      simp only [if_neg hne, if_neg (by simp : ¬(false = true))]
      cases rest with
      | nil =>
        simp [pySplit, joinSpaces, collapseRuns, h']
      | cons d t =>
        by_cases hd : isPySpace d = true
        · have ech : pySplit (c :: d :: t) = [c] :: pySplit (d :: t) := by
            rw [pySplit_cons_notWs c (d :: t) h']
            simp [List.takeWhile_cons, List.dropWhile_cons, notWs, hd]
          have ih := collapseRuns_eq (d :: t)
          rw [ech, ih]
          by_cases hp : pySplit (d :: t) = []
          · simp [hp, joinSpaces]
          · simp only [if_neg hp]
            rw [joinSpaces_cons]
            simp [headWs, hd, hp, List.isEmpty_iff]
        · have hd' : isPySpace d = false := by simpa using hd
          have ech : pySplit (c :: d :: t) =
              (c :: d :: t.takeWhile notWs) :: pySplit (t.dropWhile notWs) := by
            rw [pySplit_cons_notWs c (d :: t) h']
            simp [List.takeWhile_cons, List.dropWhile_cons, notWs, hd']
          have ech2 : pySplit (d :: t) =
              (d :: t.takeWhile notWs) :: pySplit (t.dropWhile notWs) :=
            pySplit_cons_notWs d t hd'
          have ih := collapseRuns_eq (d :: t)
          rw [ech, ih]
          simp only [if_neg (pySplit_ne_nil d t hd'), headWs, hd',
            if_neg (by simp : ¬(false = true))]
          rw [joinSpaces_cons, ech2, joinSpaces_cons]
          simp
termination_by l.length
decreasing_by
  · simp only [List.length_cons]
    exact Nat.lt_succ_of_le (dropWhile_length_le isPySpace _)
  · simp only [List.length_cons]
    omega
  · simp only [List.length_cons]
    omega

theorem pySplit_tokens (l : List Char) :
    ∀ w ∈ pySplit l, w ≠ [] ∧ ∀ c ∈ w, isPySpace c = false := by
  match l with
  | [] => simp [pySplit]
  | c :: rest =>
    by_cases h : isPySpace c = true
    · rw [pySplit_cons_ws c rest h]
      exact pySplit_tokens rest
    · have h' : isPySpace c = false := by simpa using h
      rw [pySplit_cons_notWs c rest h']
      intro w hw
      rcases List.mem_cons.mp hw with hw1 | hw2
      · subst hw1
        refine ⟨by simp, ?_⟩
        intro x hx
        rcases List.mem_cons.mp hx with hx1 | hx2
        · subst hx1; exact h'
        · have := List.mem_takeWhile_imp hx2
          simpa [notWs] using this
      · exact pySplit_tokens (rest.dropWhile notWs) w hw2
termination_by l.length
decreasing_by
  · simp only [List.length_cons]
    omega
  · simp only [List.length_cons]
    exact Nat.lt_succ_of_le (dropWhile_length_le notWs _)

end processing

/-- Modelled from the claim text of C3 and the spec's tokenizer contract: a
token of character length > 1 whose first character is one of the two
conjunction letters (Waw, Feh) is replaced by exactly two tokens, its first
character alone then the remainder; every other token maps to itself. -/
def conjSplitSpec : List Char → List (List Char)
  | c :: d :: rest => if c = waw ∨ c = feh then [[c], d :: rest] else [c :: d :: rest]
  | w => [w]

theorem splitTokens_eq_flatMap (ws : List (List Char)) :
    processing.splitTokens ws = ws.flatMap conjSplitSpec := by
  induction ws with
  | nil => rfl
  | cons w rest ih =>
    cases w with
    | nil =>
      simp [processing.splitTokens, conjSplitSpec, ih]
    | cons c w2 =>
      cases w2 with
      | nil =>
        simp [processing.splitTokens, conjSplitSpec, ih]
      | cons d t =>
        have hlen : (c :: d :: t).length > 1 := by simp
        by_cases hc : c = waw ∨ c = feh
        · have hsw : processing.startswith_wa_fa (c :: d :: t) = true := by
            rcases hc with rfl | rfl <;> simp [processing.startswith_wa_fa]
          simp [processing.splitTokens, conjSplitSpec, hc, hsw, hlen, ih,
            List.take, List.drop]
        · have hsw : processing.startswith_wa_fa (c :: d :: t) = false := by
            push_neg at hc
            simp [processing.startswith_wa_fa, hc.1, hc.2]
          simp [processing.splitTokens, conjSplitSpec, hc, hsw, ih]

theorem splitTokens_flatten (ws : List (List Char)) :
    (processing.splitTokens ws).flatten = ws.flatten := by
  induction ws with
  | nil => rfl
  | cons w rest ih =>
    by_cases hw : w.length > 1 ∧ processing.startswith_wa_fa w
    · simp only [processing.splitTokens, if_pos hw, List.flatten_cons, ih]
      rw [← List.append_assoc, List.take_append_drop]
    · simp [processing.splitTokens, hw, ih]

theorem splitTokens_length (ws : List (List Char)) :
    ws.length ≤ (processing.splitTokens ws).length := by
  induction ws with
  | nil => simp [processing.splitTokens]
  | cons w rest ih =>
    by_cases hw : w.length > 1 ∧ processing.startswith_wa_fa w <;>
      simp [processing.splitTokens, hw] <;> omega

/-- Claim C3: tokenize with conjunction splitting equals the baseline token
list with each token of length > 1 starting with Waw or Feh replaced in place
by its first character then the remainder, all other tokens (including
length-1 conjunction tokens) passing through unchanged in order. -/
theorem tokenize_split_refines (text : List Char) :
    processing.tokenize text true =
      (processing.tokenize text false).flatMap conjSplitSpec ∧
    ∀ w : List Char, w.length ≤ 1 → conjSplitSpec w = [w] := by
  constructor
  · have h1 : processing.tokenize text true =
        processing.splitTokens (processing.pySplit text) := rfl
    have h0 : processing.tokenize text false = processing.pySplit text := rfl
    rw [h1, h0, splitTokens_eq_flatMap]
  · intro w hw
    match w with
    | [] => rfl
    | [c] => rfl
    | c :: d :: t => simp at hw

/-- Claim C4: every baseline token is non-empty and whitespace-free, and
joining the tokens with single spaces reconstructs the text with its
whitespace runs collapsed, for every input text (leading and trailing
whitespace included). Token order matches left-to-right text order, which
the join equation expresses. -/
theorem tokenize_baseline_reconstructs (text : List Char) :
    (∀ w ∈ processing.tokenize text false,
      w ≠ [] ∧ ∀ c ∈ w, processing.isPySpace c = false) ∧
    processing.joinSpaces (processing.tokenize text false) =
      processing.collapseWs text := by
  have ht : processing.tokenize text false = processing.pySplit text := rfl
  constructor
  · rw [ht]
    exact processing.pySplit_tokens text
  · rw [ht]
    unfold processing.collapseWs
    rw [processing.collapseRuns_eq, processing.pySplit_dropWhile]
    have hh : processing.headWs (text.dropWhile processing.isPySpace) = false := by
      cases hr : text.dropWhile processing.isPySpace with
      | nil => rfl
      | cons d t =>
        simpa [processing.headWs] using
          processing.dropWhile_head_false processing.isPySpace text d t hr
    rw [hh]
    by_cases hp : processing.pySplit text = []
    · simp [hp, processing.joinSpaces]
    · simp [hp]

/-- Claim C10: splitting on conjunctions neither adds, removes nor alters any
character: the concatenation of all tokens is identical with the flag true and
false, and the token count with the flag true is at least the count with it
false. -/
theorem tokenize_split_conserves (text : List Char) :
    (processing.tokenize text true).flatten =
      (processing.tokenize text false).flatten ∧
    (processing.tokenize text false).length ≤
      (processing.tokenize text true).length := by
  have h1 : processing.tokenize text true =
      processing.splitTokens (processing.pySplit text) := rfl
  have h0 : processing.tokenize text false = processing.pySplit text := rfl
  rw [h1, h0]
  exact ⟨splitTokens_flatten _, splitTokens_length _⟩

/-! ## Letter count comparison (claim C8) -/

/-- Claim C8: for a verse containing at least one diacritic, letter_count with
both flags true is at most letter_count with both flags false: character
normalization is length-preserving and maps no character to or from a space,
so only diacritic removal can reduce the non-space character count. -/
theorem letter_count_flags_le (a : Ayah)
    (h : ∃ c ∈ a.raw_text, processing.isDiacritic c = true) :
    a.letter_count true true ≤ a.letter_count false false := by
  have e1 : a.get_processed_text true true =
      processing.normalize_arabic (processing.remove_diacritics a.raw_text) := rfl
  have e0 : a.get_processed_text false false = a.raw_text := rfl
  unfold Ayah.letter_count
  rw [e1, e0]
  unfold processing.normalize_arabic
  rw [List.filter_map, List.length_map]
  have hcongr : (processing.remove_diacritics a.raw_text).filter
      ((fun c => !(c == ' ')) ∘ processing.normalizeChar) =
      (processing.remove_diacritics a.raw_text).filter (fun c => !(c == ' ')) := by
    apply List.filter_congr
    intro x _
    exact normalizeChar_space x
  rw [hcongr]
  exact List.Sublist.length_le
    (List.Sublist.filter _ (List.filter_sublist a.raw_text))

theorem letter_count_flags_le_witness :
    (∃ c ∈ (Ayah.mk 1 1 [waw, fatha]).raw_text, processing.isDiacritic c = true) ∧
    (Ayah.mk 1 1 [waw, fatha]).letter_count true true ≤
      (Ayah.mk 1 1 [waw, fatha]).letter_count false false :=
  ⟨by decide, letter_count_flags_le (Ayah.mk 1 1 [waw, fatha]) (by decide)⟩

/-! ## Surah.get_ayah (claim C5) -/

/-- Claim C5: under the invariant that the verses carry numbers 1..n in order,
get_ayah rejects every integer outside [1, n] with the error naming the
chapter and the offending number, and on [1, n] returns the verse at that
1-indexed position, whose number equals the request, so that looking the
result's number up again returns the same verse. -/
theorem get_ayah_spec (s : Surah)
    (inv : s.ayahs.map Ayah.number = List.range' 1 s.ayahs.length) (v : Int) :
    ((v < 1 ∨ (s.ayahs.length : Int) < v) →
      s.get_ayah v = Except.error (MarkoomError.invalidAyahNumber s.number v)) ∧
    (1 ≤ v → v ≤ (s.ayahs.length : Int) →
      ∃ a, s.get_ayah v = Except.ok a ∧ (a.number : Int) = v ∧
        s.get_ayah (a.number : Int) = Except.ok a) := by
  have hnum : ∀ (i : Nat) (hi : i < s.ayahs.length),
      (s.ayahs.get ⟨i, hi⟩).number = 1 + i := by
    intro i hi
    have hlen1 : i < (s.ayahs.map Ayah.number).length := by simpa using hi
    have h2 := List.getElem_of_eq inv hlen1
    rw [List.getElem_map, List.getElem_range'] at h2
    simpa using h2
  constructor
  · intro hout
    unfold Surah.get_ayah
    rw [dif_neg (by omega)]
  · intro h1 h2
    have hlt : (v - 1).toNat < s.ayahs.length := by omega
    refine ⟨s.ayahs.get ⟨(v - 1).toNat, hlt⟩, ?_, ?_, ?_⟩
    · unfold Surah.get_ayah
      rw [dif_pos ⟨h1, h2⟩]
    · rw [hnum _ hlt]
      push_cast
      omega
    · have hn : ((s.ayahs.get ⟨(v - 1).toNat, hlt⟩).number : Int) = v := by
        rw [hnum _ hlt]
        push_cast
        omega
      rw [hn]
      unfold Surah.get_ayah
      rw [dif_pos ⟨h1, h2⟩]

def witnessSurah : Surah :=
  ⟨1, [], [Ayah.mk 1 1 [alef], Ayah.mk 1 2 [waw]]⟩

theorem get_ayah_spec_witness :
    witnessSurah.get_ayah 0 = Except.error (MarkoomError.invalidAyahNumber 1 0) ∧
    ∃ a, witnessSurah.get_ayah 2 = Except.ok a ∧ (a.number : Int) = 2 ∧
      witnessSurah.get_ayah (a.number : Int) = Except.ok a :=
  ⟨(get_ayah_spec witnessSurah (by decide) 0).1 (by decide),
   (get_ayah_spec witnessSurah (by decide) 2).2 (by decide) (by decide)⟩

/-! ## Quran.get_surah (claim C6) -/

/-- Claim C6: when the chapters mapping has keys exactly 1..114 (each chapter
numbered by its key), get_surah raises the invalid-number error naming n for
every integer outside [1, 114] and returns the chapter numbered n inside
[1, 114]. -/
theorem get_surah_spec (q : Quran)
    (hkeys : ∀ n : Int, (q.surahs n).isSome = true ↔ (1 ≤ n ∧ n ≤ 114))
    (hnum : ∀ (n : Int) (s : Surah), q.surahs n = some s → (s.number : Int) = n)
    (n : Int) :
    (¬(1 ≤ n ∧ n ≤ 114) →
      q.get_surah n = Except.error (MarkoomError.invalidSurahNumber n)) ∧
    ((1 ≤ n ∧ n ≤ 114) →
      ∃ s, q.get_surah n = Except.ok s ∧ (s.number : Int) = n) := by
  constructor
  · intro hn
    cases hs : q.surahs n with
    | none => simp [Quran.get_surah, hs]
    | some s => exact absurd ((hkeys n).1 (by simp [hs])) hn
  · intro hn
    have hsome := (hkeys n).2 hn
    cases hs : q.surahs n with
    | none => rw [hs] at hsome; simp at hsome
    | some s => exact ⟨s, by simp [Quran.get_surah, hs], hnum n s hs⟩

def witnessQuran : Quran :=
  ⟨"uthmani", fun n => if 1 ≤ n ∧ n ≤ 114 then some ⟨n.toNat, [], []⟩ else none⟩

theorem get_surah_spec_witness :
    witnessQuran.get_surah 115 = Except.error (MarkoomError.invalidSurahNumber 115) ∧
    witnessQuran.get_surah 0 = Except.error (MarkoomError.invalidSurahNumber 0) ∧
    ∃ s, witnessQuran.get_surah 1 = Except.ok s ∧ (s.number : Int) = 1 := by
  have hk : ∀ n : Int, (witnessQuran.surahs n).isSome = true ↔ (1 ≤ n ∧ n ≤ 114) := by
    intro n
    by_cases h : 1 ≤ n ∧ n ≤ 114 <;> simp [witnessQuran, h]
  have hn : ∀ (n : Int) (s : Surah),
      witnessQuran.surahs n = some s → (s.number : Int) = n := by
    intro n s hs
    by_cases h : 1 ≤ n ∧ n ≤ 114
    · simp [witnessQuran, h] at hs
      rw [← hs]
      simp
      omega
    · simp [witnessQuran, h] at hs
  exact ⟨(get_surah_spec witnessQuran hk hn 115).1 (by decide),
         (get_surah_spec witnessQuran hk hn 0).1 (by decide),
         (get_surah_spec witnessQuran hk hn 1).2 (by decide)⟩

/-! ## Bismillah handling in the loader (claim C9) -/

theorem processAyaRecord_false (r : AyaRecord) :
    processAyaRecord false r = r.text := by
  cases hb : r.bismillah <;> simp [processAyaRecord, hb]

/-- Claim C9: a loaded verse's raw text is the invocation phrase, one space,
then the record's literal text exactly when the record carries the bismillah
attribute and the verse is the first verse element of its chapter; every other
record keeps its literal text unchanged. -/
theorem load_bismillah_spec (sn : Nat) (records : List AyaRecord) (i : Nat)
    (h : i < records.length) (hl : i < (loadSurahAyahs sn records).length) :
    (∀ b, (records.get ⟨i, h⟩).bismillah = some b →
      (i = 0 → ((loadSurahAyahs sn records).get ⟨i, hl⟩).raw_text =
        b ++ ' ' :: (records.get ⟨i, h⟩).text) ∧
      (i ≠ 0 → ((loadSurahAyahs sn records).get ⟨i, hl⟩).raw_text =
        (records.get ⟨i, h⟩).text)) ∧
    ((records.get ⟨i, h⟩).bismillah = none →
      ((loadSurahAyahs sn records).get ⟨i, hl⟩).raw_text =
        (records.get ⟨i, h⟩).text) := by
  match records, i with
  | r :: rest, 0 =>
    constructor
    · intro b hb
      refine ⟨fun _ => ?_, fun h0 => absurd rfl h0⟩
      simp only [List.get] at hb ⊢
      simp [loadSurahAyahs, processAyaRecord, hb]
    · intro hb
      simp only [List.get] at hb ⊢
      simp [loadSurahAyahs, processAyaRecord, hb]
  | r :: rest, j + 1 =>
    have hj : j < rest.length := by simpa using h
    have e1 : (r :: rest : List AyaRecord).get ⟨j + 1, h⟩ = rest.get ⟨j, hj⟩ := by
      simp
    have e2 : ((loadSurahAyahs sn (r :: rest)).get ⟨j + 1, hl⟩).raw_text =
        processAyaRecord false (rest.get ⟨j, hj⟩) := by
      simp [loadSurahAyahs]
    rw [e1, e2, processAyaRecord_false]
    exact ⟨fun b _ => ⟨fun h0 => absurd h0 (by omega), fun _ => rfl⟩, fun _ => rfl⟩

def witnessRecords : List AyaRecord :=
  [AyaRecord.mk 1 [alef] (some [waw]), AyaRecord.mk 2 [alef] (some [waw])]

theorem load_bismillah_spec_witness :
    ((loadSurahAyahs 9 witnessRecords).get ⟨0, by decide⟩).raw_text =
      [waw] ++ ' ' :: [alef] ∧
    ((loadSurahAyahs 9 witnessRecords).get ⟨1, by decide⟩).raw_text = [alef] :=
  ⟨((load_bismillah_spec 9 witnessRecords 0 (by decide) (by decide)).1 [waw] rfl).1 rfl,
   ((load_bismillah_spec 9 witnessRecords 1 (by decide) (by decide)).1 [waw] rfl).2
     (by decide)⟩
